import Mathlib

/-!
Verification of the CS2 item-price scraper (`src/main.py`) against its
specification. The Python source is shallowly embedded: strings are Lean
`String`s (lists of unicode scalar values), the network is an explicit
oracle mapping a request URL and an attempt index to a response, and
currency amounts are exact rationals. Every definition mirrors the
corresponding Python code; modelling choices that restrict a library
function to the fragment exercised here are recorded in doc comments.
-/

/-! ## Python string primitives -/

/-- Python `str.isspace` / the character set stripped by `str.strip()`:
ASCII whitespace, the C1 controls `\x1c`–`\x1f` and `\x85`, NBSP, and the
unicode space separators. -/
def pyIsSpace (c : Char) : Bool :=
  let n := c.toNat
  n = 0x20 || (0x9 ≤ n && n ≤ 0xD) || (0x1C ≤ n && n ≤ 0x1F) || n = 0x85 ||
  n = 0xA0 || n = 0x1680 || (0x2000 ≤ n && n ≤ 0x200A) || n = 0x2028 ||
  n = 0x2029 || n = 0x202F || n = 0x205F || n = 0x3000

/-- Python `str.strip()`: drop leading and trailing whitespace. -/
def pyStrip (l : List Char) : List Char :=
  ((l.dropWhile pyIsSpace).reverse.dropWhile pyIsSpace).reverse

/-- Line-break characters recognised by Python `str.splitlines`. -/
def isLineBreak (c : Char) : Bool :=
  let n := c.toNat
  n = 0xA || n = 0xB || n = 0xC || n = 0xD || (0x1C ≤ n && n ≤ 0x1E) ||
  n = 0x85 || n = 0x2028 || n = 0x2029

/-- Worker for `splitlines`: `acc` holds the current line reversed; a
`\r\n` pair counts as a single break, and a trailing break opens no empty
final line, exactly as in Python. -/
def splitlinesGo : List Char → List Char → List (List Char)
  | [], acc => if acc.isEmpty then [] else [acc.reverse]
  | '\r' :: '\n' :: rest, acc => acc.reverse :: splitlinesGo rest []
  | c :: rest, acc =>
    if isLineBreak c then acc.reverse :: splitlinesGo rest []
    else splitlinesGo rest (c :: acc)

/-- Python `str.splitlines()`. -/
def splitlines (l : List Char) : List (List Char) :=
  splitlinesGo l []

/-! ## `clean_item_name` (src/main.py lines 17–35) -/

/-- The `replacements` table of `clean_item_name`, as a per-character map.
Every pattern in the Python dict is a single code point and no replacement
value is itself a pattern, so the chain of `str.replace` calls equals one
left-to-right pass. -/
def charReplace (c : Char) : List Char :=
  if c = '™' ∨ c = '®' ∨ c = '★' then []
  else if c = '’' ∨ c = '‘' then ['\'']
  else if c = '“' ∨ c = '”' then ['"']
  else if c = '–' ∨ c = '—' then ['-']
  else if c = ' ' then [' ']
  else [c]

/-- One pass of the `replacements` table over the string. -/
def applyReplacements : List Char → List Char
  | [] => []
  | c :: cs => charReplace c ++ applyReplacements cs

/-- Unicode NFKC normalization (`unicodedata.normalize("NFKC", ·)`),
modelled by its action on the code points this development exercises, per
the Unicode character database: U+2122 TRADE MARK SIGN decomposes to
"TM", U+FE58 SMALL EM DASH to U+2014 EM DASH, U+00A0 NO-BREAK SPACE to
a plain space; ASCII, the typographic quotes and dashes of the
`replacements` table, U+00AE and U+2605 are NFKC-stable and every other
code point is modelled as fixed. Composition across adjacent code points
is not modelled. -/
def nfkcChar (c : Char) : List Char :=
  if c = '™' then ['T', 'M']
  else if c = '﹘' then ['—']
  else if c = ' ' then [' ']
  else [c]

/-- NFKC over a whole string (per-code-point model). -/
def pyNFKC : List Char → List Char
  | [] => []
  | c :: cs => nfkcChar c ++ pyNFKC cs

/-- `clean_item_name` of src/main.py: apply the `replacements` table,
normalize with NFKC, and strip surrounding whitespace. -/
def clean_item_name (s : String) : String :=
  String.mk (pyStrip (pyNFKC (applyReplacements s.data)))

/-! ## Lookup-key encoding (src/main.py lines 38–41)
`urllib.parse.quote(item_name, safe='')`: UTF-8 encode the string, keep
the unreserved bytes, and percent-encode every other byte with uppercase
hex digits. -/

/-- UTF-8 encoding of one unicode scalar value, as byte values. -/
def utf8EncodeChar (n : Nat) : List Nat :=
  if n < 0x80 then [n]
  else if n < 0x800 then [0xC0 + n / 64, 0x80 + n % 64]
  else if n < 0x10000 then
    [0xE0 + n / 4096, 0x80 + (n / 64) % 64, 0x80 + n % 64]
  else
    [0xF0 + n / 262144, 0x80 + (n / 4096) % 64, 0x80 + (n / 64) % 64,
     0x80 + n % 64]

/-- UTF-8 encoding of a sequence of scalar values. -/
def utf8Encode : List Nat → List Nat
  | [] => []
  | n :: ns => utf8EncodeChar n ++ utf8Encode ns

/-- The bytes `urllib.parse.quote` never encodes when `safe=''`: ASCII
letters, digits, and `_ . - ~` (exactly the RFC 3986 unreserved set). -/
def isUnreservedByte (b : Nat) : Bool :=
  (0x41 ≤ b && b ≤ 0x5A) || (0x61 ≤ b && b ≤ 0x7A) ||
  (0x30 ≤ b && b ≤ 0x39) || b = 0x5F || b = 0x2E || b = 0x2D || b = 0x7E

/-- Uppercase hex digit for a value below 16, as a byte value. -/
def hexDigitChar (n : Nat) : Nat :=
  if n < 10 then 0x30 + n else 0x37 + n

/-- Percent-encoding of one byte: unreserved bytes pass through, every
other byte becomes `%` followed by two uppercase hex digits. -/
def percentEncodeByte (b : Nat) : List Nat :=
  if isUnreservedByte b then [b]
  else [0x25, hexDigitChar (b / 16), hexDigitChar (b % 16)]

/-- Percent-encoding of a byte sequence. -/
def percentEncode : List Nat → List Nat
  | [] => []
  | b :: bs => percentEncodeByte b ++ percentEncode bs

/-- Value of one hex-digit byte (either case), if it is one. -/
def hexVal (b : Nat) : Option Nat :=
  if 0x30 ≤ b ∧ b ≤ 0x39 then some (b - 0x30)
  else if 0x41 ≤ b ∧ b ≤ 0x46 then some (b - 0x37)
  else if 0x61 ≤ b ∧ b ≤ 0x66 then some (b - 0x57)
  else none

/-- Percent-decoding: each `%` must be followed by two hex digits. -/
def percentDecode : List Nat → Option (List Nat)
  | [] => some []
  | b :: rest =>
    if b = 0x25 then
      match rest with
      | h :: l :: rest2 =>
        match hexVal h, hexVal l with
        | some hv, some lv =>
          (percentDecode rest2).map (fun bs => (16 * hv + lv) :: bs)
        | _, _ => none
      | _ => none
    else (percentDecode rest).map (fun bs => b :: bs)

/-- Strict decoding of one UTF-8-encoded scalar value: `b` is the lead
byte, the continuation bytes are taken from the remaining stream; returns
the scalar value and the rest of the stream. Rejects continuation-byte
errors, overlong forms, surrogates and values beyond U+10FFFF. -/
def utf8DecodeOne (b : Nat) : List Nat → Option (Nat × List Nat) :=
  fun rest =>
    if b < 0x80 then some (b, rest)
    else if b < 0xC2 then none
    else if b < 0xE0 then
      match rest with
      | b2 :: rest2 =>
        if 0x80 ≤ b2 ∧ b2 < 0xC0 then
          some ((b - 0xC0) * 64 + (b2 - 0x80), rest2)
        else none
      | [] => none
    else if b < 0xF0 then
      match rest with
      | b2 :: b3 :: rest2 =>
        if (0x80 ≤ b2 ∧ b2 < 0xC0) ∧ (0x80 ≤ b3 ∧ b3 < 0xC0) then
          let c := (b - 0xE0) * 4096 + (b2 - 0x80) * 64 + (b3 - 0x80)
          if c < 0x800 ∨ (0xD800 ≤ c ∧ c < 0xE000) then none
          else some (c, rest2)
        else none
      | _ => none
    else if b < 0xF5 then
      match rest with
      | b2 :: b3 :: b4 :: rest2 =>
        if (0x80 ≤ b2 ∧ b2 < 0xC0) ∧ (0x80 ≤ b3 ∧ b3 < 0xC0) ∧
            (0x80 ≤ b4 ∧ b4 < 0xC0) then
          let c := (b - 0xF0) * 262144 + (b2 - 0x80) * 4096 +
            (b3 - 0x80) * 64 + (b4 - 0x80)
          if c < 0x10000 ∨ 0x110000 ≤ c then none
          else some (c, rest2)
        else none
      | _ => none
    else none

/-- Strict UTF-8 decoding of a whole byte stream, one scalar value at a
time; the fuel argument dominates the number of lead bytes and makes the
recursion structural. -/
def utf8DecodeLoop : Nat → List Nat → Option (List Nat)
  | _, [] => some []
  | 0, _ :: _ => none
  | Nat.succ fuel, b :: rest =>
    match utf8DecodeOne b rest with
    | some (c, rest2) => (utf8DecodeLoop fuel rest2).map (fun cs => c :: cs)
    | none => none

/-- Strict UTF-8 decoding (the stream's length bounds the number of lead
bytes, so it is enough fuel). -/
def utf8Decode (l : List Nat) : Option (List Nat) :=
  utf8DecodeLoop l.length l

/-- The lookup key sent to the endpoint: `quote(item_name, safe='')` of
src/main.py line 40, as a byte sequence. -/
def lookupKey (name : String) : List Nat :=
  percentEncode (utf8Encode (name.data.map Char.toNat))

/-- The lookup key rendered back as a string (its bytes are all ASCII). -/
def quoteSafe (name : String) : String :=
  String.mk ((lookupKey name).map Char.ofNat)

/-- The request URL of src/main.py line 41. -/
def priceUrl (item_name : String) (appid : Int) : String :=
  "https://steamcommunity.com/market/priceoverview/?country=PH&currency=12&appid="
    ++ toString appid ++ "&market_hash_name=" ++ quoteSafe item_name

/-! ## The remote endpoint and `get_price` (src/main.py lines 38–62) -/

/-- The JSON body the endpoint returns on HTTP 200: a `success` flag and
optional `lowest_price` / `median_price` fields (currency-formatted
strings; an absent field is `none`, and an empty string models any other
falsy field value). -/
structure MarketJson where
  success : Bool
  lowest_price : Option String
  median_price : Option String
deriving DecidableEq

/-- One remote response to one request: either an exception raised inside
the `try` block (timeout, connection error), or an HTTP response with a
status code and — when the body parses as JSON — its parsed body (`none`
models a body on which `resp.json()` raises; that exception is caught by
the same handler). -/
inductive Response where
  | exn : Response
  | http : Nat → Option MarketJson → Response
deriving DecidableEq

/-- The network, modelled as a pure oracle: the response to the `i`-th
request issued for a given URL. -/
def Oracle : Type := String → Nat → Response

/-- Python truthiness of an optional string field: `None` and `""` are
falsy. -/
def truthyStr : Option String → Option String
  | some s => if s = "" then none else some s
  | none => none

/-- Line 55 of src/main.py:
`data.get("lowest_price") or data.get("median_price") or "No price listed"`. -/
def pickPrice (d : MarketJson) : String :=
  match truthyStr d.lowest_price with
  | some s => s
  | none =>
    match truthyStr d.median_price with
    | some s => s
    | none => "No price listed"

/-- The attempt loop of `get_price` (lines 48–62). `k` is the number of
attempts left, `i` the number of requests already issued; the result pairs
the returned price string with the total number of requests issued. An
exception, a non-200 status, a malformed body, or a falsy `success` flag
all fall through to the next attempt (the `time.sleep` backoff has no
effect on the result and is not modelled); a truthy `success` flag returns
`pickPrice` at once; an exhausted loop returns the sentinel. -/
def attemptLoop (resp : Nat → Response) : Nat → Nat → String × Nat
  | 0, i => ("No price listed", i)
  | Nat.succ k, i =>
    match resp i with
    | Response.exn => attemptLoop resp k (i + 1)
    | Response.http status body =>
      if status = 200 then
        match body with
        | none => attemptLoop resp k (i + 1)
        | some d =>
          if d.success then (pickPrice d, i + 1) else attemptLoop resp k (i + 1)
      else attemptLoop resp k (i + 1)

/-- `get_price` of src/main.py (defaults `appid=730`, `retries=3` at the
call site). `retries` is an `int`; `range(1, retries + 1)` has
`max 0 retries` iterations. The result's second component counts the
requests issued. -/
def get_price (oracle : Oracle) (item_name : String) (appid : Int)
    (retries : Int) : String × Nat :=
  attemptLoop (oracle (priceUrl item_name appid)) retries.toNat 0

/-- A response on which the attempt loop falls through to the next
attempt: an exception, a non-200 status, a malformed body, or a body whose
`success` flag is falsy. -/
def isFailure : Response → Bool
  | Response.exn => true
  | Response.http status body =>
    if status = 200 then
      match body with
      | none => true
      | some d => !d.success
    else true

/-- The price string an attempt returns immediately, if any: HTTP 200, a
well-formed body, and a truthy `success` flag. -/
def successPrice : Response → Option String
  | Response.exn => none
  | Response.http status body =>
    if status = 200 then
      match body with
      | some d => if d.success then some (pickPrice d) else none
      | none => none
    else none

/-! ## Numeric parsing and the batch loop (src/main.py lines 75–135) -/

/-- Line 113: `price.replace("₱","").replace("P","").replace(",","")
.replace(" ","").strip()` — each pattern is a single character, so the
chain is one filter followed by a strip. -/
def stripPriceSymbols (price : String) : String :=
  String.mk (pyStrip (price.data.filter
    (fun c => !(c == '₱' || c == 'P' || c == ',' || c == ' '))))

/-- ASCII decimal digit test. -/
def isDigitChar (c : Char) : Bool := '0' ≤ c ∧ c ≤ '9'

/-- Value of a run of decimal digits, most significant first. -/
def natOfDigits : List Char → Nat → Nat
  | [], acc => acc
  | c :: cs, acc => natOfDigits cs (acc * 10 + (c.toNat - 0x30))

/-- Python `float(·)` on an unsigned decimal literal `d* [. d*]` (at
least one digit overall), with the value taken exactly as a rational.
Exotic accepted forms (exponents, underscores, `inf`, `nan`) and binary
rounding of the result are not modelled: the embedding treats the parsed
amount as an exact rational number. Anything else is a parse failure
(Python raises `ValueError`, caught at line 118). -/
def pyFloatCore (l : List Char) : Option ℚ :=
  let ip := l.takeWhile isDigitChar
  let rest := l.dropWhile isDigitChar
  match rest with
  | [] => if ip.isEmpty then none else some (natOfDigits ip 0)
  | c :: frac =>
    if c = '.' ∧ frac.all isDigitChar ∧ ¬(ip.isEmpty ∧ frac.isEmpty) then
      some ((natOfDigits ip 0 : ℚ) + (natOfDigits frac 0 : ℚ) / (10 ^ frac.length : ℚ))
    else none

/-- Python `float(·)` with an optional sign. -/
def pyFloat (s : String) : Option ℚ :=
  match s.data with
  | '+' :: rest => pyFloatCore rest
  | '-' :: rest => (pyFloatCore rest).map (fun q => -q)
  | l => pyFloatCore l

/-- The value `price_num` holds after lines 110–120 (and the amount added
to `total_value`): zero for the sentinel, the empty string, or an
unparseable string; otherwise the parsed amount. -/
def priceContribution (price : String) : ℚ :=
  if price ≠ "No price listed" ∧ price ≠ "" then
    match pyFloat (stripPriceSymbols price) with
    | some v => v
    | none => 0
  else 0

/-- The mutable state of the batch loop of `scrape_items`: the Telegram
result lines, the rows written to the output file after the header, the
two counters, the running total, and (instrumentation) the number of
network requests issued. -/
structure RunState where
  results : List String
  rows : List String
  success_count : Nat
  fail_count : Nat
  total_value : ℚ
  net_calls : Nat
deriving DecidableEq

/-- The state before the loop (lines 96–99). -/
def initState : RunState := ⟨[], [], 0, 0, 0, 0⟩

/-- The quote obtained for one raw input item: `get_price` on the cleaned
name with `appid=730` and the default `retries=3` (line 107). -/
def quoteFor (oracle : Oracle) (src_item : String) : String :=
  (get_price oracle (clean_item_name src_item) 730 3).1

/-- The Telegram result line for one item (line 127). -/
def resultLine (oracle : Oracle) (src_item : String) : String :=
  src_item ++ " → " ++ quoteFor oracle src_item

/-- The output-file row for one item (line 128). -/
def rowLine (oracle : Oracle) (src_item : String) : String :=
  src_item ++ "\t" ++ clean_item_name src_item ++ "\t" ++ quoteFor oracle src_item

/-- Number of network requests issued for one item. -/
def itemCalls (oracle : Oracle) (src_item : String) : Nat :=
  (get_price oracle (clean_item_name src_item) 730 3).2

/-- One iteration of the batch loop (lines 105–135): fetch the price for
the cleaned name, add the parsed amount (or zero) to the total, bump
exactly one counter by the sentinel test of line 122, and append the
result line and the file row. The progress messages and the `time.sleep`
pacing have no effect on the state and are not modelled. -/
def processItem (oracle : Oracle) (st : RunState) (src_item : String) : RunState :=
  let price := quoteFor oracle src_item
  { results := st.results ++ [src_item ++ " → " ++ price]
    rows := st.rows ++ [src_item ++ "\t" ++ clean_item_name src_item ++ "\t" ++ price]
    success_count := if price ≠ "No price listed" then st.success_count + 1
      else st.success_count
    fail_count := if price ≠ "No price listed" then st.fail_count
      else st.fail_count + 1
    total_value := st.total_value + priceContribution price
    net_calls := st.net_calls + itemCalls oracle src_item }

/-- Line 79: strip the message text, split it into lines, strip each
line, and keep the non-blank ones. -/
def items_of (text : String) : List String :=
  ((((splitlines (pyStrip text.data)).map pyStrip).filter
    (fun l => !l.isEmpty)).map (fun l => String.mk l))

/-- Outcome of `scrape_items`: either the early validation return of
lines 81–83 (the "⚠️ Please send item names" reply; nothing is fetched or
written), or the final state of the batch loop. -/
inductive ScrapeOutcome where
  | validationError : ScrapeOutcome
  | completed : RunState → ScrapeOutcome
deriving DecidableEq

/-- `scrape_items` of src/main.py: validate the input, then fold the
batch loop over the items in order. -/
def scrape_items (oracle : Oracle) (text : String) : ScrapeOutcome :=
  let items := items_of text
  if items.isEmpty then ScrapeOutcome.validationError
  else ScrapeOutcome.completed (items.foldl (processItem oracle) initState)

/-- The final loop state of an outcome (the initial state when the batch
never started: empty results and rows, zero counters, zero requests). -/
def ledgerOf : ScrapeOutcome → RunState
  | ScrapeOutcome.validationError => initState
  | ScrapeOutcome.completed st => st

/-! ## Auxiliary predicates and concrete oracles used by the theorems -/

/-- A character the `replacements` table of `clean_item_name` acts on,
grouped exactly as the branches of `charReplace`. -/
abbrev isReplKey (c : Char) : Prop :=
  (c = '™' ∨ c = '®' ∨ c = '★') ∨ (c = '’' ∨ c = '‘') ∨ (c = '“' ∨ c = '”') ∨
  (c = '–' ∨ c = '—') ∨ c = ' '

/-- A byte that may appear in a lookup key: an unreserved byte, `%`, or
an uppercase hex digit. -/
def keyByteOk (b : Nat) : Bool :=
  isUnreservedByte b || b == 0x25 || (0x30 ≤ b && b ≤ 0x39) ||
  (0x41 ≤ b && b ≤ 0x46)

/-- An endpoint that always answers HTTP 200, success, with the
unparseable price string "N/A". -/
def oracleNA : Oracle :=
  fun _ _ => Response.http 200 (some ⟨true, some "N/A", none⟩)

/-- An endpoint that rejects every lookup (logical failure) except the
URL for the simplified name "M9 Bayonet", which it prices. -/
def fallbackOracle : Oracle :=
  fun url _ =>
    if url = priceUrl "M9 Bayonet" 730 then
      Response.http 200 (some ⟨true, some "₱100.00", none⟩)
    else Response.http 200 (some ⟨false, none, none⟩)

/-! ## Lemmas about the attempt loop -/

/-- A failing response makes one iteration fall through to the next
attempt. -/
theorem attemptLoop_fail_step (resp : Nat → Response) (k i : Nat)
    (h : isFailure (resp i) = true) :
    attemptLoop resp (k + 1) i = attemptLoop resp k (i + 1) := by
  cases hr : resp i with
  | exn => simp [attemptLoop, hr]
  | http status body =>
    rw [hr] at h
    simp only [isFailure] at h
    by_cases hs : status = 200
    · subst hs
      rw [if_pos rfl] at h
      cases body with
      | none => simp [attemptLoop, hr]
      | some d =>
        have h2 : (!d.success) = true := h
        have hd : d.success = false := by
          cases hval : d.success
          · rfl
          · rw [hval] at h2
            simp at h2
        simp [attemptLoop, hr, hd]
    · simp [attemptLoop, hr, hs]

/-- A successful response returns its price at once. -/
theorem attemptLoop_success_step (resp : Nat → Response) (k i : Nat) (q : String)
    (h : successPrice (resp i) = some q) :
    attemptLoop resp (k + 1) i = (q, i + 1) := by
  cases hr : resp i with
  | exn =>
    rw [hr] at h
    have h2 : (none : Option String) = some q := h
    exact absurd h2 (by simp)
  | http status body =>
    rw [hr] at h
    simp only [successPrice] at h
    by_cases hs : status = 200
    · subst hs
      rw [if_pos rfl] at h
      cases body with
      | none =>
        have h2 : (none : Option String) = some q := h
        exact absurd h2 (by simp)
      | some d =>
        have h2 : (if d.success = true then some (pickPrice d) else none) = some q := h
        cases hval : d.success
        · rw [hval] at h2
          simp at h2
        · rw [hval, if_pos rfl] at h2
          have hq : pickPrice d = q := Option.some.inj h2
          simp [attemptLoop, hr, hval, hq]
    · rw [if_neg hs] at h
      exact absurd h (by simp)

/-- If every one of the `k` attempts starting at request index `i` fails,
the loop returns the sentinel. -/
theorem attemptLoop_all_fail (resp : Nat → Response) :
    ∀ (k i : Nat), (∀ j, j < k → isFailure (resp (i + j)) = true) →
      (attemptLoop resp k i).1 = "No price listed" := by
  intro k
  induction k with
  | zero => intro i _; rfl
  | succ n ih =>
    intro i h
    have h0 : isFailure (resp i) = true := by
      have := h 0 (Nat.succ_pos n)
      simpa using this
    rw [attemptLoop_fail_step resp n i h0]
    exact ih (i + 1) (fun j hj => by
      have := h (j + 1) (Nat.succ_lt_succ hj)
      rwa [show i + (j + 1) = i + 1 + j by omega] at this)

/-- If the first `m` attempts fail and attempt `m` (still within the
bound) succeeds with price `q`, the loop returns `q`. -/
theorem attemptLoop_first_success (resp : Nat → Response) :
    ∀ (m k i : Nat) (q : String), m < k →
      (∀ j, j < m → isFailure (resp (i + j)) = true) →
      successPrice (resp (i + m)) = some q →
      (attemptLoop resp k i).1 = q := by
  intro m
  induction m with
  | zero =>
    intro k i q hk _ hs
    obtain ⟨n, rfl⟩ : ∃ n, k = n + 1 := ⟨k - 1, by omega⟩
    rw [attemptLoop_success_step resp n i q (by simpa using hs)]
  | succ m ih =>
    intro k i q hk hfail hs
    obtain ⟨n, rfl⟩ : ∃ n, k = n + 1 := ⟨k - 1, by omega⟩
    have h0 : isFailure (resp i) = true := by
      have := hfail 0 (Nat.succ_pos m)
      simpa using this
    rw [attemptLoop_fail_step resp n i h0]
    refine ih n (i + 1) q (by omega) (fun j hj => ?_) ?_
    · have := hfail (j + 1) (Nat.succ_lt_succ hj)
      rwa [show i + (j + 1) = i + 1 + j by omega] at this
    · rwa [show i + (m + 1) = i + 1 + m by omega] at hs

/-- C1: for every item name and any response sequence in which all
`retries` attempts fail (exception/timeout, non-200 status, malformed
body, or an HTTP 200 whose `success` flag is falsy), `get_price` returns
the sentinel "No price listed" — it is a total function of the oracle, so
no exception escapes; and when the first non-failing attempt occurs
within the bound and carries a truthy `success` flag, `get_price` returns
the quote of that response (in particular a present `lowest_price` field
is the quote returned). -/
theorem C1_retry_bound (oracle : Oracle) (name : String) (retries : Int) :
    ((∀ i, i < retries.toNat →
        isFailure (oracle (priceUrl name 730) i) = true) →
      (get_price oracle name 730 retries).1 = "No price listed") ∧
    (∀ i q, i < retries.toNat →
      (∀ j, j < i → isFailure (oracle (priceUrl name 730) j) = true) →
      successPrice (oracle (priceUrl name 730) i) = some q →
      (get_price oracle name 730 retries).1 = q) ∧
    (∀ (d : MarketJson) (s : String),
      truthyStr d.lowest_price = some s → pickPrice d = s) := by
  refine ⟨?_, ?_, ?_⟩
  · intro h
    exact attemptLoop_all_fail (oracle (priceUrl name 730)) retries.toNat 0
      (fun j hj => by simpa using h j hj)
  · intro i q hi hfail hs
    exact attemptLoop_first_success (oracle (priceUrl name 730)) i retries.toNat 0 q
      hi (fun j hj => by simpa using hfail j hj) (by simpa using hs)
  · intro d s h
    rw [pickPrice, h]

/-- C10: with `retries <= 0` the loop `range(1, retries + 1)` is empty,
so `get_price` issues no request at all and returns the sentinel. -/
theorem C10_nonpositive_retries (oracle : Oracle) (name : String)
    (appid retries : Int) (h : retries ≤ 0) :
    get_price oracle name appid retries = ("No price listed", 0) := by
  rw [get_price, Int.toNat_eq_zero.mpr h]
  rfl

/-- Witness for C10 at `retries = -1`: no attempt, sentinel returned. -/
theorem C10_witness :
    get_price (fun _ _ => Response.exn) "AWP | Dragon Lore" 730 (-1)
      = ("No price listed", 0) :=
  C10_nonpositive_retries (fun _ _ => Response.exn) "AWP | Dragon Lore" 730 (-1)
    (by decide)

/-- C5 counterexample: the endpoint rejects every lookup of the precise
marker-bearing name "★ M9 Bayonet" but prices the simplified name
"M9 Bayonet"; `get_price` on the precise name still returns the sentinel
after its attempt loop — it never strips the markers and never repeats
the loop on the simplified name, which the same oracle would have
priced. -/
theorem C5_counterexample :
    (get_price fallbackOracle "★ M9 Bayonet" 730 3).1 = "No price listed" ∧
    (get_price fallbackOracle "M9 Bayonet" 730 3).1 = "₱100.00" := by
  constructor
  · rfl
  · rfl

/-- C5 amended: the decorative markers are stripped unconditionally by
`clean_item_name` before the first lookup, and `get_price` runs a single
attempt loop on that simplified name only — there is no fallback pass.
Consequently, when the remote prices the simplified name (here: on the
first attempt), the item's quote in the pipeline is that price rather
than the sentinel. -/
theorem C5_markers_stripped_before_lookup (oracle : Oracle) (src q : String)
    (h : successPrice (oracle (priceUrl (clean_item_name src) 730) 0) = some q) :
    quoteFor oracle src = q := by
  rw [quoteFor, get_price]
  rw [show ((3 : Int)).toNat = 2 + 1 by rfl]
  rw [attemptLoop_success_step (oracle (priceUrl (clean_item_name src) 730)) 2 0 q h]

/-- Witness for C5's amended statement: the fallback oracle prices the
simplified name, the marker-bearing item's quote is that price. -/
theorem C5_witness :
    quoteFor fallbackOracle "★ M9 Bayonet" = "₱100.00" :=
  C5_markers_stripped_before_lookup fallbackOracle "★ M9 Bayonet" "₱100.00"
    (by decide)

/-! ## Lemmas about the lookup-key encoding -/

/-- Hex digits round-trip for values below 16. -/
theorem hexVal_hexDigitChar : ∀ n, n < 16 → hexVal (hexDigitChar n) = some n := by
  decide

/-- UTF-8 encoding of a scalar value produces bytes. -/
theorem utf8EncodeChar_lt_256 (n : Nat) (h : n < 0x110000) :
    ∀ b ∈ utf8EncodeChar n, b < 256 := by
  intro b hb
  rw [utf8EncodeChar] at hb
  by_cases h1 : n < 0x80
  · rw [if_pos h1] at hb
    simp at hb
    omega
  · rw [if_neg h1] at hb
    by_cases h2 : n < 0x800
    · rw [if_pos h2] at hb
      simp at hb
      rcases hb with rfl | rfl <;> omega
    · rw [if_neg h2] at hb
      by_cases h3 : n < 0x10000
      · rw [if_pos h3] at hb
        simp at hb
        rcases hb with rfl | rfl | rfl <;> omega
      · rw [if_neg h3] at hb
        simp at hb
        rcases hb with rfl | rfl | rfl | rfl <;> omega

/-- UTF-8 encoding of a sequence of scalar values produces bytes. -/
theorem utf8Encode_lt_256 :
    ∀ ns : List Nat, (∀ n ∈ ns, n < 0x110000) → ∀ b ∈ utf8Encode ns, b < 256 := by
  intro ns
  induction ns with
  | nil => intro _ b hb; simp [utf8Encode] at hb
  | cons n ns ih =>
    intro h b hb
    rw [utf8Encode, List.mem_append] at hb
    rcases hb with hb | hb
    · exact utf8EncodeChar_lt_256 n (h n (List.mem_cons_self n ns)) b hb
    · exact ih (fun m hm => h m (List.mem_cons_of_mem n hm)) b hb

/-- The unreserved bytes do not include `%`. -/
theorem unreserved_ne_percent (b : Nat) (h : isUnreservedByte b = true) :
    b ≠ 0x25 := by
  intro he
  subst he
  exact absurd h (by decide)

/-- Percent-decoding undoes percent-encoding of any byte sequence. -/
theorem percentDecode_percentEncode :
    ∀ bs : List Nat, (∀ b ∈ bs, b < 256) →
      percentDecode (percentEncode bs) = some bs := by
  intro bs
  induction bs with
  | nil => intro _; rfl
  | cons b bs ih =>
    intro h
    have hb : b < 256 := h b (List.mem_cons_self b bs)
    have htl : percentDecode (percentEncode bs) = some bs :=
      ih (fun m hm => h m (List.mem_cons_of_mem b hm))
    rw [percentEncode, percentEncodeByte]
    by_cases hu : isUnreservedByte b = true
    · rw [if_pos hu, List.cons_append, List.nil_append, percentDecode.eq_def]
      dsimp only
      rw [if_neg (unreserved_ne_percent b hu), htl]
      rfl
    · rw [if_neg hu]
      simp only [List.cons_append, List.nil_append]
      rw [percentDecode.eq_def]
      dsimp only
      rw [if_pos rfl, hexVal_hexDigitChar (b / 16) (by omega),
        hexVal_hexDigitChar (b % 16) (by omega)]
      dsimp only
      rw [htl, show 16 * (b / 16) + b % 16 = b by omega]
      rfl

/-- Decoding one UTF-8-encoded scalar value at the head of a byte stream
peels off exactly that value. -/
theorem utf8DecodeOne_encodeChar (n : Nat) (h1 : n < 0x110000)
    (h2 : n < 0xD800 ∨ 0xE000 ≤ n) (L : List Nat) :
    ∃ b bs, utf8EncodeChar n = b :: bs ∧
      utf8DecodeOne b (bs ++ L) = some (n, L) := by
  by_cases ha : n < 0x80
  · refine ⟨n, [], by rw [utf8EncodeChar, if_pos ha], ?_⟩
    simp only [utf8DecodeOne, List.nil_append]
    rw [if_pos ha]
  · by_cases hb : n < 0x800
    · refine ⟨0xC0 + n / 64, [0x80 + n % 64],
        by rw [utf8EncodeChar, if_neg ha, if_pos hb], ?_⟩
      simp only [utf8DecodeOne, List.cons_append, List.nil_append]
      rw [if_neg (by omega), if_neg (by omega), if_pos (by omega)]
      rw [if_pos (by constructor <;> omega)]
      rw [show (0xC0 + n / 64 - 0xC0) * 64 + (0x80 + n % 64 - 0x80) = n by omega]
    · by_cases hc : n < 0x10000
      · refine ⟨0xE0 + n / 4096, [0x80 + n / 64 % 64, 0x80 + n % 64],
          by rw [utf8EncodeChar, if_neg ha, if_neg hb, if_pos hc], ?_⟩
        simp only [utf8DecodeOne, List.cons_append, List.nil_append]
        rw [if_neg (by omega), if_neg (by omega), if_neg (by omega),
          if_pos (by omega)]
        rw [if_pos (by refine ⟨⟨?_, ?_⟩, ?_, ?_⟩ <;> omega)]
        rw [show (0xE0 + n / 4096 - 0xE0) * 4096 + (0x80 + n / 64 % 64 - 0x80) * 64
            + (0x80 + n % 64 - 0x80) = n by omega]
        rw [if_neg (by omega)]
      · refine ⟨0xF0 + n / 262144,
          [0x80 + n / 4096 % 64, 0x80 + n / 64 % 64, 0x80 + n % 64],
          by rw [utf8EncodeChar, if_neg ha, if_neg hb, if_neg hc], ?_⟩
        simp only [utf8DecodeOne, List.cons_append, List.nil_append]
        rw [if_neg (by omega), if_neg (by omega), if_neg (by omega),
          if_neg (by omega), if_pos (by omega)]
        rw [if_pos (by refine ⟨⟨?_, ?_⟩, ⟨?_, ?_⟩, ?_, ?_⟩ <;> omega)]
        rw [show (0xF0 + n / 262144 - 0xF0) * 262144 + (0x80 + n / 4096 % 64 - 0x80) * 4096
            + (0x80 + n / 64 % 64 - 0x80) * 64 + (0x80 + n % 64 - 0x80) = n by omega]
        rw [if_neg (by omega)]

/-- The decode loop undoes UTF-8 encoding whenever the fuel dominates the
stream length. -/
theorem utf8DecodeLoop_encode :
    ∀ (ns : List Nat) (fuel : Nat),
      (∀ n ∈ ns, n < 0x110000 ∧ (n < 0xD800 ∨ 0xE000 ≤ n)) →
      (utf8Encode ns).length ≤ fuel →
      utf8DecodeLoop fuel (utf8Encode ns) = some ns := by
  intro ns
  induction ns with
  | nil =>
    intro fuel _ _
    cases fuel <;> rfl
  | cons n ns ih =>
    intro fuel hv hlen
    obtain ⟨h1, h2⟩ := hv n (List.mem_cons_self n ns)
    obtain ⟨b, bs, henc, hdec⟩ := utf8DecodeOne_encodeChar n h1 h2 (utf8Encode ns)
    rw [utf8Encode, henc, List.cons_append] at hlen ⊢
    simp only [List.length_cons, List.length_append] at hlen
    obtain ⟨f, rfl⟩ : ∃ f, fuel = f + 1 := ⟨fuel - 1, by omega⟩
    rw [utf8DecodeLoop, hdec]
    dsimp only
    rw [ih f (fun m hm => hv m (List.mem_cons_of_mem n hm)) (by omega)]
    rfl

/-- UTF-8 decoding undoes UTF-8 encoding of any sequence of scalar
values. -/
theorem utf8Decode_utf8Encode :
    ∀ ns : List Nat, (∀ n ∈ ns, n < 0x110000 ∧ (n < 0xD800 ∨ 0xE000 ≤ n)) →
      utf8Decode (utf8Encode ns) = some ns := by
  intro ns h
  exact utf8DecodeLoop_encode ns (utf8Encode ns).length h (Nat.le_refl _)

/-- Every scalar value of a Lean `Char` is a valid unicode scalar. -/
theorem char_toNat_valid (c : Char) :
    c.toNat < 0x110000 ∧ (c.toNat < 0xD800 ∨ 0xE000 ≤ c.toNat) := by
  have he : c.toNat = c.val.toNat := rfl
  rcases c.valid with h | ⟨h1, h2⟩
  · rw [he]
    exact ⟨by omega, Or.inl h⟩
  · rw [he]
    exact ⟨h2, Or.inr (by omega)⟩

/-- Every byte of a percent-encoded key is unreserved, `%`, or an
uppercase hex digit. -/
theorem percentEncode_all_keyByteOk :
    ∀ bs : List Nat, (∀ b ∈ bs, b < 256) →
      (percentEncode bs).all keyByteOk = true := by
  intro bs
  induction bs with
  | nil => intro _; rfl
  | cons b bs ih =>
    intro h
    have hb : b < 256 := h b (List.mem_cons_self b bs)
    rw [percentEncode, List.all_append,
      ih (fun m hm => h m (List.mem_cons_of_mem b hm)), Bool.and_true,
      percentEncodeByte]
    by_cases hu : isUnreservedByte b = true
    · rw [if_pos hu]
      simp [keyByteOk, hu]
    · rw [if_neg hu]
      have hx : ∀ m, m < 16 → keyByteOk (hexDigitChar m) = true := by decide
      simp only [List.all_cons, List.all_nil, hx (b / 16) (by omega),
        hx (b % 16) (by omega), Bool.and_true]
      decide

/-- C3: the lookup key is deterministic (it is a pure function of the
normalized name, so equal names give byte-identical keys), every key byte
is an unreserved byte, `%`, or an uppercase hex digit (every character
outside the unreserved set is percent-encoded), and the key is a single —
not double — percent-encoding of the name's UTF-8 bytes: percent-decoding
it recovers exactly the UTF-8 byte sequence of the name, and UTF-8
decoding that recovers the name's scalar values exactly. -/
theorem C3_lookup_key_encoding (name : String) :
    (lookupKey name).all keyByteOk = true ∧
    percentDecode (lookupKey name) = some (utf8Encode (name.data.map Char.toNat)) ∧
    utf8Decode (utf8Encode (name.data.map Char.toNat)) =
      some (name.data.map Char.toNat) := by
  have hval : ∀ n ∈ name.data.map Char.toNat,
      n < 0x110000 ∧ (n < 0xD800 ∨ 0xE000 ≤ n) := by
    intro n hn
    rw [List.mem_map] at hn
    obtain ⟨c, _, rfl⟩ := hn
    exact char_toNat_valid c
  have hbytes := utf8Encode_lt_256 (name.data.map Char.toNat)
    (fun n hn => (hval n hn).1)
  exact ⟨percentEncode_all_keyByteOk _ hbytes,
    percentDecode_percentEncode _ hbytes,
    utf8Decode_utf8Encode _ hval⟩

/-! ## Lemmas about `clean_item_name` -/

/-- The head surviving a `dropWhile` fails the predicate. -/
theorem dropWhile_head_false {α : Type} (p : α → Bool) (l : List α) (c : α)
    (m : List α) (h : List.dropWhile p l = c :: m) : p c = false := by
  have h2 := List.head?_dropWhile_not p l
  rw [h] at h2
  exact h2

/-- `dropWhile` is idempotent. -/
theorem dropWhile_idem {α : Type} (p : α → Bool) (l : List α) :
    List.dropWhile p (List.dropWhile p l) = List.dropWhile p l := by
  cases h : List.dropWhile p l with
  | nil => exact List.dropWhile_nil
  | cons c m =>
    have hc := dropWhile_head_false p l c m h
    exact List.dropWhile_cons_of_neg (by rw [hc]; exact Bool.false_ne_true)

/-- Dropping leading whitespace from an already right-then-left trimmed
list does nothing: its first element survived the first `dropWhile`. -/
theorem dropWhile_reverse_dropWhile {α : Type} (p : α → Bool) (l : List α) :
    List.dropWhile p (List.dropWhile p (List.dropWhile p l).reverse).reverse
      = (List.dropWhile p (List.dropWhile p l).reverse).reverse := by
  cases hR : (List.dropWhile p (List.dropWhile p l).reverse).reverse with
  | nil => exact List.dropWhile_nil
  | cons c m =>
    obtain ⟨t, ht⟩ := List.dropWhile_suffix (l := (List.dropWhile p l).reverse) p
    have hA : (List.dropWhile p (List.dropWhile p l).reverse).reverse ++ t.reverse
        = List.dropWhile p l := by
      have h2 := congrArg List.reverse ht
      rwa [List.reverse_append, List.reverse_reverse] at h2
    have hhead : (List.dropWhile p l).head? = some c := by
      rw [← hA, List.head?_append, hR]
      rfl
    obtain ⟨m0, hm0⟩ : ∃ m0, List.dropWhile p l = c :: m0 := by
      cases hl : List.dropWhile p l with
      | nil => rw [hl] at hhead; exact absurd hhead (by simp)
      | cons c0 m0 =>
        rw [hl] at hhead
        exact ⟨m0, by rw [show c0 = c from by simpa using hhead]⟩
    have hc := dropWhile_head_false p l c m0 hm0
    exact List.dropWhile_cons_of_neg (by rw [hc]; exact Bool.false_ne_true)

/-- `str.strip()` is idempotent. -/
theorem pyStrip_idem (l : List Char) : pyStrip (pyStrip l) = pyStrip l := by
  simp only [pyStrip]
  rw [dropWhile_reverse_dropWhile pyIsSpace l, List.reverse_reverse,
    dropWhile_idem]

/-- Stripping only removes elements. -/
theorem mem_pyStrip (d : Char) (l : List Char) (h : d ∈ pyStrip l) : d ∈ l := by
  simp only [pyStrip] at h
  rw [List.mem_reverse] at h
  have h2 := (List.dropWhile_suffix (l := (List.dropWhile pyIsSpace l).reverse)
    pyIsSpace).sublist.mem h
  rw [List.mem_reverse] at h2
  exact (List.dropWhile_suffix pyIsSpace).sublist.mem h2

/-- A character the `replacements` table does not act on is kept. -/
theorem charReplace_of_not_key (c : Char) (h : ¬ isReplKey c) :
    charReplace c = [c] := by
  simp only [charReplace]
  rw [if_neg (fun a => h (Or.inl a)),
    if_neg (fun a => h (Or.inr (Or.inl a))),
    if_neg (fun a => h (Or.inr (Or.inr (Or.inl a)))),
    if_neg (fun a => h (Or.inr (Or.inr (Or.inr (Or.inl a))))),
    if_neg (fun a => h (Or.inr (Or.inr (Or.inr (Or.inr a)))))]

/-- The replacement pass fixes any string free of table characters. -/
theorem applyReplacements_eq_self :
    ∀ l : List Char, (∀ c ∈ l, ¬ isReplKey c) → applyReplacements l = l := by
  intro l
  induction l with
  | nil => intro _; rfl
  | cons c cs ih =>
    intro h
    rw [applyReplacements, charReplace_of_not_key c (h c (List.mem_cons_self c cs)),
      ih (fun d hd => h d (List.mem_cons_of_mem c hd))]
    rfl

/-- Every character `nfkcChar` emits is itself NFKC-fixed. -/
theorem nfkcChar_mem_fixed (c d : Char) (hd : d ∈ nfkcChar c) :
    nfkcChar d = [d] := by
  by_cases h1 : c = '™'
  · subst h1
    rw [show nfkcChar '™' = ['T', 'M'] from by decide] at hd
    simp at hd
    rcases hd with rfl | rfl <;> decide
  · by_cases h2 : c = '﹘'
    · subst h2
      rw [show nfkcChar '﹘' = ['—'] from by decide] at hd
      simp at hd
      subst hd
      decide
    · by_cases h3 : c = ' '
      · subst h3
        rw [show nfkcChar ' ' = [' '] from by decide] at hd
        simp at hd
        subst hd
        decide
      · have hfix : nfkcChar c = [c] := by
          simp only [nfkcChar]
          rw [if_neg h1, if_neg h2, if_neg h3]
        rw [hfix] at hd
        simp at hd
        subst hd
        exact hfix

/-- Every character of an NFKC-normalized string is NFKC-fixed. -/
theorem pyNFKC_mem_fixed :
    ∀ (l : List Char) (d : Char), d ∈ pyNFKC l → nfkcChar d = [d] := by
  intro l
  induction l with
  | nil => intro d hd; simp [pyNFKC] at hd
  | cons c cs ih =>
    intro d hd
    rw [pyNFKC, List.mem_append] at hd
    rcases hd with hd | hd
    · exact nfkcChar_mem_fixed c d hd
    · exact ih d hd

/-- NFKC fixes a string all of whose characters are NFKC-fixed. -/
theorem pyNFKC_eq_self :
    ∀ l : List Char, (∀ d ∈ l, nfkcChar d = [d]) → pyNFKC l = l := by
  intro l
  induction l with
  | nil => intro _; rfl
  | cons c cs ih =>
    intro h
    rw [pyNFKC, h c (List.mem_cons_self c cs),
      ih (fun d hd => h d (List.mem_cons_of_mem c hd))]
    rfl

/-- C2 counterexample: `clean_item_name` is not idempotent on the string
"﹘" (U+FE58 SMALL EM DASH). The replacement table does not touch U+FE58;
NFKC then normalizes it to U+2014 EM DASH — a key of the replacement
table — so the first pass returns "—", and a second pass replaces that
em dash with "-". -/
theorem C2_counterexample :
    clean_item_name (clean_item_name "﹘") ≠ clean_item_name "﹘" := by
  decide

/-- C2 amended: `clean_item_name` is total (and maps the empty string to
the empty string), and it is idempotent on every input whose cleaned form
contains no character of the replacement table — NFKC can reintroduce
table characters (e.g. U+FE58 normalizes to the em dash), and exactly
those inputs break idempotence. -/
theorem C2_normalization_idempotent (x : String)
    (h : ∀ c ∈ (clean_item_name x).data, ¬ isReplKey c) :
    clean_item_name (clean_item_name x) = clean_item_name x ∧
    clean_item_name "" = "" := by
  refine ⟨?_, rfl⟩
  have hdata : (clean_item_name x).data
      = pyStrip (pyNFKC (applyReplacements x.data)) := rfl
  have h1 : applyReplacements (clean_item_name x).data = (clean_item_name x).data :=
    applyReplacements_eq_self _ h
  have h2 : pyNFKC (clean_item_name x).data = (clean_item_name x).data := by
    apply pyNFKC_eq_self
    intro d hd
    apply pyNFKC_mem_fixed (applyReplacements x.data) d
    rw [hdata] at hd
    exact mem_pyStrip d _ hd
  have h3 : pyStrip (clean_item_name x).data = (clean_item_name x).data := by
    rw [hdata]
    exact pyStrip_idem _
  calc clean_item_name (clean_item_name x)
      = String.mk (pyStrip (pyNFKC (applyReplacements (clean_item_name x).data))) := rfl
    _ = String.mk (pyStrip (pyNFKC (clean_item_name x).data)) := by rw [h1]
    _ = String.mk (pyStrip (clean_item_name x).data) := by rw [h2]
    _ = String.mk (clean_item_name x).data := by rw [h3]
    _ = clean_item_name x := rfl

/-- Witness for C2's amended statement on a realistic item name. -/
theorem C2_witness :
    clean_item_name (clean_item_name " StatTrak™ AK-47 | Redline ")
      = clean_item_name " StatTrak™ AK-47 | Redline " :=
  (C2_normalization_idempotent " StatTrak™ AK-47 | Redline " (by decide)).1

/-- Every character of the replacement pass's output comes from some
input character's image. -/
theorem mem_applyReplacements :
    ∀ (l : List Char) (d : Char), d ∈ applyReplacements l →
      ∃ c, c ∈ l ∧ d ∈ charReplace c := by
  intro l
  induction l with
  | nil => intro d hd; simp [applyReplacements] at hd
  | cons c cs ih =>
    intro d hd
    rw [applyReplacements, List.mem_append] at hd
    rcases hd with hd | hd
    · exact ⟨c, List.mem_cons_self c cs, hd⟩
    · obtain ⟨c2, hc2, hd2⟩ := ih d hd
      exact ⟨c2, List.mem_cons_of_mem c hc2, hd2⟩

/-- Every character of the NFKC pass's output comes from some input
character's image. -/
theorem mem_pyNFKC :
    ∀ (l : List Char) (d : Char), d ∈ pyNFKC l →
      ∃ c, c ∈ l ∧ d ∈ nfkcChar c := by
  intro l
  induction l with
  | nil => intro d hd; simp [pyNFKC] at hd
  | cons c cs ih =>
    intro d hd
    rw [pyNFKC, List.mem_append] at hd
    rcases hd with hd | hd
    · exact ⟨c, List.mem_cons_self c cs, hd⟩
    · obtain ⟨c2, hc2, hd2⟩ := ih d hd
      exact ⟨c2, List.mem_cons_of_mem c hc2, hd2⟩

/-- The replacement pass never emits a rarity star or a trademark sign
(it deletes both). -/
theorem star_tm_not_in_charReplace (c : Char) :
    '★' ∉ charReplace c ∧ '™' ∉ charReplace c := by
  simp only [charReplace]
  split_ifs with h1 h2 h3 h4 h5
  · constructor <;> simp
  · constructor <;> decide
  · constructor <;> decide
  · constructor <;> decide
  · constructor <;> decide
  · constructor
    · intro hm
      simp at hm
      exact h1 (Or.inr (Or.inr hm.symm))
    · intro hm
      simp at hm
      exact h1 (Or.inl hm.symm)

/-- NFKC emits a rarity star only for a rarity-star input. -/
theorem star_not_in_nfkcChar (c : Char) (hc : c ≠ '★') : '★' ∉ nfkcChar c := by
  simp only [nfkcChar]
  split_ifs with h1 h2 h3
  · decide
  · decide
  · decide
  · intro hm
    simp at hm
    exact hc hm.symm

/-- NFKC never emits a trademark sign (U+2122 decomposes to "TM"). -/
theorem tm_not_in_nfkcChar (c : Char) (hc : c ≠ '™') : '™' ∉ nfkcChar c := by
  simp only [nfkcChar]
  split_ifs with h1 h2 h3
  · decide
  · decide
  · decide
  · intro hm
    simp at hm
    exact hc hm.symm

/-- C6 counterexample: the input contains the rarity star, but
`clean_item_name` removes it (the `replacements` table maps `★` — and
`™` — to the empty string), so the glyph does not pass through to the
lookup. -/
theorem C6_counterexample :
    '★' ∈ "★ M9 Bayonet | Doppler".data ∧
    '★' ∉ (clean_item_name "★ M9 Bayonet | Doppler").data := by
  decide

/-- C6 amended: normalization removes the rarity-star and trademark
markers: the output of `clean_item_name` never contains `★` or `™`,
whatever the input. -/
theorem C6_markers_removed (s : String) :
    '★' ∉ (clean_item_name s).data ∧ '™' ∉ (clean_item_name s).data := by
  constructor
  · intro hmem
    have hmem2 : '★' ∈ pyNFKC (applyReplacements s.data) :=
      mem_pyStrip '★' (pyNFKC (applyReplacements s.data)) hmem
    obtain ⟨c, hc, hd⟩ := mem_pyNFKC (applyReplacements s.data) '★' hmem2
    by_cases he : c = '★'
    · subst he
      obtain ⟨c2, _, hd2⟩ := mem_applyReplacements s.data '★' hc
      exact (star_tm_not_in_charReplace c2).1 hd2
    · exact star_not_in_nfkcChar c he hd
  · intro hmem
    have hmem2 : '™' ∈ pyNFKC (applyReplacements s.data) :=
      mem_pyStrip '™' (pyNFKC (applyReplacements s.data)) hmem
    obtain ⟨c, hc, hd⟩ := mem_pyNFKC (applyReplacements s.data) '™' hmem2
    by_cases he : c = '™'
    · subst he
      obtain ⟨c2, _, hd2⟩ := mem_applyReplacements s.data '™' hc
      exact (star_tm_not_in_charReplace c2).2 hd2
    · exact tm_not_in_nfkcChar c he hd

/-! ## Lemmas about the batch loop -/

/-- Folding the batch loop from any state appends one result line, one
file row, one counter bump and one total contribution per item, in input
order. -/
theorem foldl_processItem (oracle : Oracle) :
    ∀ (items : List String) (st : RunState),
      items.foldl (processItem oracle) st =
        { results := st.results ++ items.map (resultLine oracle)
          rows := st.rows ++ items.map (rowLine oracle)
          success_count := st.success_count
            + items.countP (fun s => quoteFor oracle s != "No price listed")
          fail_count := st.fail_count
            + items.countP (fun s => quoteFor oracle s == "No price listed")
          total_value := st.total_value
            + (items.map (fun s => priceContribution (quoteFor oracle s))).sum
          net_calls := st.net_calls + (items.map (itemCalls oracle)).sum } := by
  intro items
  induction items with
  | nil =>
    intro st
    simp
  | cons a l ih =>
    intro st
    rw [List.foldl_cons, ih]
    simp only [processItem, resultLine, rowLine, List.map_cons, List.countP_cons,
      List.sum_cons, RunState.mk.injEq]
    by_cases h : quoteFor oracle a = "No price listed"
    · refine ⟨by simp, by simp, ?_, ?_, ?_, ?_⟩
      · simp [h]
      · simp [h]
        omega
      · simp [h]
        ring
      · omega
    · have hb : (quoteFor oracle a != "No price listed") = true := by
        simpa using h
      have hb2 : (quoteFor oracle a == "No price listed") = false := by
        simpa using h
      refine ⟨by simp, by simp, ?_, ?_, ?_, ?_⟩
      · simp [if_pos h, hb]
        omega
      · simp [if_pos h, hb2]
      · ring
      · omega

/-- The final state of `scrape_items` in one closed form: the empty
state when validation fails (then `items_of text` is empty and every
component below is empty or zero as well), and the fold over the items
otherwise. -/
theorem ledgerOf_scrape_items (oracle : Oracle) (text : String) :
    ledgerOf (scrape_items oracle text) =
      { results := (items_of text).map (resultLine oracle)
        rows := (items_of text).map (rowLine oracle)
        success_count :=
          (items_of text).countP (fun s => quoteFor oracle s != "No price listed")
        fail_count :=
          (items_of text).countP (fun s => quoteFor oracle s == "No price listed")
        total_value :=
          ((items_of text).map (fun s => priceContribution (quoteFor oracle s))).sum
        net_calls := ((items_of text).map (itemCalls oracle)).sum } := by
  simp only [scrape_items]
  by_cases h : (items_of text).isEmpty = true
  · have h2 : items_of text = [] := List.isEmpty_iff.mp h
    rw [if_pos h, h2]
    rfl
  · rw [if_neg h, ledgerOf, foldl_processItem]
    simp [initState]

/-- C4 counterexample: the endpoint answers success with the quote
"N/A". The batch counts the item as a success (the test of line 122 is
only `price != "No price listed"`), yet "N/A" is not a parsed currency
amount — numeric parsing fails and the total stays zero. So success is
not equivalent to "the quote is a parsed currency amount". -/
theorem C4_counterexample :
    (ledgerOf (scrape_items oracleNA "AK-47 | Redline (Field-Tested)")).success_count = 1 ∧
    pyFloat (stripPriceSymbols "N/A") = none ∧
    (ledgerOf (scrape_items oracleNA "AK-47 | Redline (Field-Tested)")).total_value = 0 := by
  refine ⟨by decide, by decide, ?_⟩
  rw [ledgerOf_scrape_items,
    show items_of "AK-47 | Redline (Field-Tested)"
      = ["AK-47 | Redline (Field-Tested)"] from by decide]
  simp only [List.map_cons, List.map_nil, List.sum_cons, List.sum_nil]
  rw [show quoteFor oracleNA "AK-47 | Redline (Field-Tested)" = "N/A" from by decide,
    priceContribution, if_pos (by decide),
    show pyFloat (stripPriceSymbols "N/A") = none from by decide]
  norm_num

/-- C4 amended: every processed item bumps exactly one of the two
counters, and it bumps `success_count` iff the quote differs from the
sentinel "No price listed" — even when the quote fails numeric parsing;
consequently `success_count + fail_count` equals the number of items
processed. -/
theorem C4_ledger_classification (oracle : Oracle) (text : String) :
    (ledgerOf (scrape_items oracle text)).success_count
      = (items_of text).countP (fun s => quoteFor oracle s != "No price listed") ∧
    (ledgerOf (scrape_items oracle text)).fail_count
      = (items_of text).countP (fun s => quoteFor oracle s == "No price listed") ∧
    (ledgerOf (scrape_items oracle text)).success_count
        + (ledgerOf (scrape_items oracle text)).fail_count
      = (items_of text).length := by
  rw [ledgerOf_scrape_items]
  refine ⟨rfl, rfl, ?_⟩
  rw [List.length_eq_countP_add_countP
    (fun s => quoteFor oracle s != "No price listed")]
  have he : ∀ s : String,
      (decide ¬((quoteFor oracle s != "No price listed") = true))
        = (quoteFor oracle s == "No price listed") := by
    intro s
    by_cases h : quoteFor oracle s = "No price listed" <;> simp [h]
  simp only [he]

/-- C7: numeric parsing strips the peso sign and the thousands
separators, so "₱1,234.50" contributes exactly 1234.50; the running total
is the sum of the per-item contributions over the batch; a quote that
fails numeric parsing contributes exactly zero; and the item is still
recorded in the results whatever its quote. -/
theorem C7_numeric_parsing (oracle : Oracle) (text price : String)
    (st : RunState) (src : String) (h1 : price ≠ "No price listed")
    (h2 : pyFloat (stripPriceSymbols price) = none) :
    priceContribution "₱1,234.50" = 2469 / 2 ∧
    (ledgerOf (scrape_items oracle text)).total_value
      = ((items_of text).map (fun s => priceContribution (quoteFor oracle s))).sum ∧
    priceContribution price = 0 ∧
    (processItem oracle st src).results = st.results ++ [resultLine oracle src] := by
  refine ⟨?_, ?_, ?_, rfl⟩
  · have hs : stripPriceSymbols "₱1,234.50" = "1234.50" := by decide
    have hf : pyFloat "1234.50" = some ((1234 : ℚ) + (50 : ℚ) / (10 ^ (2 : ℕ) : ℚ)) := rfl
    calc priceContribution "₱1,234.50"
        = (1234 : ℚ) + (50 : ℚ) / (10 ^ (2 : ℕ) : ℚ) := by
          rw [priceContribution, if_pos (by decide), hs, hf]
      _ = 2469 / 2 := by norm_num
  · rw [ledgerOf_scrape_items]
  · rw [priceContribution]
    by_cases h3 : price = ""
    · rw [if_neg (fun hand => hand.2 h3)]
    · rw [if_pos ⟨h1, h3⟩, h2]

/-- Witness for C7 with the unparseable non-sentinel quote "N/A". -/
theorem C7_witness :
    priceContribution "₱1,234.50" = 2469 / 2 ∧
    (ledgerOf (scrape_items oracleNA "AK-47 | Redline")).total_value
      = ((items_of "AK-47 | Redline").map
          (fun s => priceContribution (quoteFor oracleNA s))).sum ∧
    priceContribution "N/A" = 0 ∧
    (processItem oracleNA initState "AK-47 | Redline").results
      = initState.results ++ [resultLine oracleNA "AK-47 | Redline"] :=
  C7_numeric_parsing oracleNA "AK-47 | Redline" "N/A" initState "AK-47 | Redline"
    (by decide) (by decide)

/-- C8: the batch produces exactly one result line per non-blank input
line, in input order: the result sequence is the image of the non-blank
stripped lines under `resultLine`, its length equals the number of
non-blank lines, and the `i`-th result is the `i`-th item's line. The
results list is only ever appended to (see `foldl_processItem`), never
mutated. -/
theorem C8_one_result_per_line (oracle : Oracle) (text : String) (i : Nat) :
    (ledgerOf (scrape_items oracle text)).results
      = (items_of text).map (resultLine oracle) ∧
    (ledgerOf (scrape_items oracle text)).results.length
      = (splitlines (pyStrip text.data)).countP (fun ln => !(pyStrip ln).isEmpty) ∧
    (ledgerOf (scrape_items oracle text)).results[i]?
      = ((items_of text)[i]?).map (resultLine oracle) := by
  rw [ledgerOf_scrape_items]
  refine ⟨rfl, ?_, ?_⟩
  · simp only [items_of, List.length_map]
    rw [← List.countP_eq_length_filter, List.countP_map]
    rfl
  · rw [List.getElem?_map]

/-- C9: an input with no non-blank line makes `scrape_items` return the
validation outcome at once, for every oracle alike: no network request is
issued, no result line and no file row is produced. -/
theorem C9_empty_input (oracle oracle2 : Oracle) (text : String)
    (h : items_of text = []) :
    scrape_items oracle text = ScrapeOutcome.validationError ∧
    scrape_items oracle text = scrape_items oracle2 text ∧
    (ledgerOf (scrape_items oracle text)).net_calls = 0 ∧
    (ledgerOf (scrape_items oracle text)).results = [] ∧
    (ledgerOf (scrape_items oracle text)).rows = [] := by
  have hv : ∀ o : Oracle, scrape_items o text = ScrapeOutcome.validationError := by
    intro o
    simp only [scrape_items, h]
    rfl
  refine ⟨hv oracle, by rw [hv oracle, hv oracle2], ?_, ?_, ?_⟩ <;>
    rw [hv oracle] <;> rfl

/-- Witness for C9 on an input of blank lines only. -/
theorem C9_witness :
    scrape_items oracleNA "  \n\t\n " = ScrapeOutcome.validationError ∧
    scrape_items oracleNA "  \n\t\n " = scrape_items fallbackOracle "  \n\t\n " ∧
    (ledgerOf (scrape_items oracleNA "  \n\t\n ")).net_calls = 0 ∧
    (ledgerOf (scrape_items oracleNA "  \n\t\n ")).results = [] ∧
    (ledgerOf (scrape_items oracleNA "  \n\t\n ")).rows = [] :=
  C9_empty_input oracleNA fallbackOracle "  \n\t\n " (by decide)
